import Mathlib

/-!
# A shallow embedding of the pyssg markdown-to-HTML core

This file models, in Lean, the markdown parsing and HTML rendering pipeline of
the pyssg static-site generator:

* `src/src/textnode.py`      — the `TextNode` span type and its constructor checks;
* `src/src/htmlnode.py`      — `LeafNode` / `ParentNode` and `to_html` rendering;
* `src/src/core/text_functions.py`     — the inline span parser
  (`split_nodes_delimiter`, `split_nodes_image`, `split_nodes_link`,
  `text_line_to_text_nodes`);
* `src/src/core/markdown_functions.py` — block segmentation, classification
  and block-to-node conversion (`markdown_to_blocks`, `get_markdown_block_type`,
  `markdown_heading_to_text_node`, `markdown_quote_to_text_node`,
  `markdown_to_html_node`, ...);
* `src/src/core/generate.py` — `extract_title`.

Strings are modelled as `List Char`.  Python exceptions are modelled by the
`PyErr` error type together with `Except`; fallible construction
(`TextNode.__init__`, `ParentNode.__init__`) becomes an explicit `mk?`
returning `Except`.  For Python's `\s` character class and `str.strip` we use
`isPySpace`, which covers the ASCII whitespace characters; all inputs in the
theorems below are ASCII, where this coincides with Python's (Unicode-aware)
definition.

Recursions that are not structural in the scanned string are implemented with
an explicit skip counter or with fuel initialised to `length + 1`; every loop
iteration of the corresponding Python code consumes at least one character of
the scanned string, so the fuel can never run out on any input, and the fuel-0
branches are dead code.  This keeps every definition reducible by `decide`.
-/

namespace Pyssg

/-- Python exceptions raised by the modelled code. -/
inductive PyErr where
  | valueError (msg : String)
  | notImplementedError (msg : String)
  | indexError
deriving Repr, DecidableEq

/-- Python's `\s` / `str.strip` whitespace, restricted to ASCII
(`' '`, `\t`, `\n`, `\r`, `\x0b`, `\x0c`). -/
def isPySpace (c : Char) : Bool :=
  c = ' ' || c = '\t' || c = '\n' || c = '\r' || c = '\x0B' || c = '\x0C'

/-- The backquote character (U+0060), written via its code point. -/
def backquote : Char := Char.ofNat 96

/-- Python `str.lstrip()`. -/
def pyLstrip (l : List Char) : List Char := l.dropWhile isPySpace

/-- Python `str.rstrip()`. -/
def pyRstrip (l : List Char) : List Char := (l.reverse.dropWhile isPySpace).reverse

/-- Python `str.strip()`. -/
def pyStrip (l : List Char) : List Char := pyRstrip (pyLstrip l)

/-- Python `str.split(sep)` for a single-character separator: always returns a
non-empty list of (possibly empty) pieces. -/
def splitOnChar (sep : Char) : List Char → List (List Char)
  | [] => [[]]
  | c :: rest =>
    let r := splitOnChar sep rest
    if c = sep then [] :: r
    else
      match r with
      | [] => [[c]]
      | h :: t => (c :: h) :: t

/-- Helper for `countOcc`: scan one character at a time; `skip` counts scan
positions still covered by the previously counted occurrence. -/
def countOccGo (needle : List Char) : Nat → List Char → Nat
  | _ + 1, [] => 0
  | k + 1, _ :: t => countOccGo needle k t
  | 0, [] => 0
  | 0, c :: t =>
    if needle.isPrefixOf (c :: t) then 1 + countOccGo needle (needle.length - 1) t
    else countOccGo needle 0 t

/-- Python `str.count(needle)`: number of non-overlapping occurrences, scanning
left to right.  (`"".count` inside a string of length `n` is `n + 1`, as in
Python; the code never calls it with an empty needle.) -/
def countOcc (needle : List Char) (hay : List Char) : Nat :=
  if needle = [] then hay.length + 1 else countOccGo needle 0 hay

/-- Python `needle in hay` substring test. -/
def containsSub (needle : List Char) : List Char → Bool
  | [] => needle.isPrefixOf []
  | c :: t => if needle.isPrefixOf (c :: t) then true else containsSub needle t

/-- Python `hay.split(sep, maxsplit=1)` when `sep` occurs: the pieces before
and after the first occurrence; `none` when `sep` does not occur. -/
def splitOnceSub (sep : List Char) : List Char → Option (List Char × List Char)
  | [] => if sep.isPrefixOf [] then some ([], []) else none
  | c :: t =>
    if sep.isPrefixOf (c :: t) then some ([], (c :: t).drop sep.length)
    else (splitOnceSub sep t).map fun p => (c :: p.1, p.2)

/-- Sequential effectful map, as a Python `for` loop appending results:
stops at the first raised error. -/
def pyMapM (f : α → Except PyErr β) : List α → Except PyErr (List β)
  | [] => .ok []
  | a :: as => (f a).bind fun b => (pyMapM f as).map fun bs => b :: bs

/-! ## `src/src/textnode.py` — the span type -/

/-- Span text-type constants of `src/src/core/text_functions.py`. -/
def TEXT_TYPE_TEXT : String := "text"

def TEXT_TYPE_BOLD : String := "bold"

def TEXT_TYPE_ITALIC : String := "italic"

def TEXT_TYPE_CODE : String := "code"

def TEXT_TYPE_LINK : String := "link"

def TEXT_TYPE_IMAGE : String := "image"

/-- A `TextNode` span: `text`, `text_type` and optional `url`
(`src/src/textnode.py`). -/
structure TextNode where
  text : List Char
  text_type : String
  url : Option (List Char)
deriving Repr, DecidableEq

/-- `TextNode.__init__`: rejects an empty (or absent) `text` and an empty
`text_type` with `ValueError`.  (The `isinstance` checks are type-level and
vacuous in this embedding.) -/
def TextNode.mk? (text : List Char) (text_type : String) (url : Option (List Char)) :
    Except PyErr TextNode :=
  if text = [] then .error (.valueError "Text must be provided for TextNode")
  else if text_type = "" then .error (.valueError "Text type must be provided for TextNode")
  else .ok ⟨text, text_type, url⟩

/-! ## `src/src/core/text_functions.py` — inline span parser -/

/-- The character loop of `extract_parts` inside `split_nodes_delimiter`:
`parts` accumulates finished parts, `current` is `current_part`,
`delim_found` the flag of the same name; the last argument is the unread rest
of the text. -/
def extract_parts_go (d : List Char) (parts : List (List Char)) (current : List Char)
    (delim_found : Bool) : List Char → Except PyErr (List (List Char))
  | [] => .ok (if current = [] then parts else parts ++ [current])
  | c :: rest =>
    let cur := current ++ [c]
    if d.isSuffixOf cur then
      if delim_found then
        -- current_part[delimiter_length:-delimiter_length]
        if (cur.drop d.length).take (cur.length - 2 * d.length) = [] then
          extract_parts_go d parts cur true rest
        else if countOcc d cur % 2 ≠ 0 then .error (.notImplementedError "")
        else extract_parts_go d (parts ++ [cur]) [] false rest
      else
        -- current_part[:-delimiter_length]
        let before := cur.take (cur.length - d.length)
        extract_parts_go d (if before = [] then parts else parts ++ [before]) d true rest
    else extract_parts_go d parts cur delim_found rest

/-- `extract_parts(text)` from `split_nodes_delimiter`. -/
def extract_parts (d : List Char) (text : List Char) : Except PyErr (List (List Char)) :=
  extract_parts_go d [] [] false text

/-- The body of the `for node in old_nodes` loop of `split_nodes_delimiter`:
the list of nodes contributed by one node.  (All nodes in this model are
`TextNode`s, so the `isinstance` escape hatch of the source never fires.) -/
def process_delim_node (node : TextNode) (delimiter : List Char) (text_type : String) :
    Except PyErr (List TextNode) :=
  if containsSub delimiter node.text = false then .ok [node]
  else if countOcc delimiter node.text % 2 ≠ 0 then
    .error (.valueError "Invalid markdown syntax")
  else
    match extract_parts delimiter node.text with
    | .error e => .error e
    | .ok parts =>
      match parts with
      | [] => .error .indexError
      | p0 :: _ =>
        if p0 = node.text ∧ ¬ (delimiter.isPrefixOf p0 = true) then .ok [node]
        else
          pyMapM (fun part =>
            if delimiter.isPrefixOf part then
              TextNode.mk? ((part.drop delimiter.length).take (part.length - 2 * delimiter.length))
                text_type none
            else TextNode.mk? part TEXT_TYPE_TEXT none) parts

/-- `split_nodes_delimiter(old_nodes, delimiter, text_type)`. -/
def split_nodes_delimiter (old_nodes : List TextNode) (delimiter : List Char)
    (text_type : String) : Except PyErr (List TextNode) :=
  match old_nodes with
  | [] => .ok []
  | node :: rest =>
    match process_delim_node node delimiter text_type with
    | .error e => .error e
    | .ok h =>
      match split_nodes_delimiter rest delimiter text_type with
      | .error e => .error e
      | .ok t => .ok (h ++ t)

/-- Non-greedy `(.*?)\]\(`: the shortest prefix `a` (with `.` not matching a
newline) such that the input is `a ++ [c1, c2] ++ rest`; returns `(a, rest)`. -/
def splitAtSeq2 (c1 c2 : Char) : List Char → Option (List Char × List Char)
  | [] => none
  | [_] => none
  | x :: y :: rest =>
    if x = c1 ∧ y = c2 then some ([], rest)
    else if x = '\n' then none
    else (splitAtSeq2 c1 c2 (y :: rest)).map fun p => (x :: p.1, p.2)

/-- Non-greedy `(.*?)\)`: the shortest prefix `a` (with `.` not matching a
newline) such that the input is `a ++ [cl] ++ rest`; returns `(a, rest)`. -/
def splitAtChar1 (cl : Char) : List Char → Option (List Char × List Char)
  | [] => none
  | x :: rest =>
    if x = cl then some ([], rest)
    else if x = '\n' then none
    else (splitAtChar1 cl rest).map fun p => (x :: p.1, p.2)

/-- `re.findall(r"!\[(.*?)\]\((.*?)\)", text)` scanned one position at a time;
`skip` counts positions still inside the previously reported match (`finditer`
resumes after a match, and advances by one character after a failed attempt). -/
def extract_markdown_images_go : Nat → List Char → List (List Char × List Char)
  | _ + 1, [] => []
  | k + 1, _ :: t => extract_markdown_images_go k t
  | 0, [] => []
  | 0, c :: t =>
    match c, t with
    | '!', '[' :: rest =>
      match splitAtSeq2 ']' '(' rest with
      | some (alt, rest2) =>
        match splitAtChar1 ')' rest2 with
        | some (url, _) =>
          -- the full match `![alt](url)` has length alt+url+5; `c` is consumed
          (alt, url) :: extract_markdown_images_go (alt.length + url.length + 4) t
        | none => extract_markdown_images_go 0 t
      | none => extract_markdown_images_go 0 t
    | _, _ => extract_markdown_images_go 0 t

/-- `extract_markdown_images(text)` (`src/src/core/markdown_functions.py`). -/
def extract_markdown_images (text : List Char) : List (List Char × List Char) :=
  extract_markdown_images_go 0 text

/-- `re.findall(r"\[(.*?)\]\((.*?)\)", text)`, as for images but without the
leading `!`. -/
def extract_markdown_links_go : Nat → List Char → List (List Char × List Char)
  | _ + 1, [] => []
  | k + 1, _ :: t => extract_markdown_links_go k t
  | 0, [] => []
  | 0, c :: t =>
    match c with
    | '[' =>
      match splitAtSeq2 ']' '(' t with
      | some (txt, rest2) =>
        match splitAtChar1 ')' rest2 with
        | some (url, _) =>
          -- the full match `[txt](url)` has length txt+url+4; `c` is consumed
          (txt, url) :: extract_markdown_links_go (txt.length + url.length + 3) t
        | none => extract_markdown_links_go 0 t
      | none => extract_markdown_links_go 0 t
    | _ => extract_markdown_links_go 0 t

/-- `extract_markdown_links(text)`. -/
def extract_markdown_links (text : List Char) : List (List Char × List Char) :=
  extract_markdown_links_go 0 text

/-- The markdown literal `![alt](url)` rebuilt by `split_nodes_image`. -/
def imageLiteral (alt url : List Char) : List Char :=
  '!' :: '[' :: alt ++ ']' :: '(' :: url ++ [')']

/-- The markdown literal `[text](url)` rebuilt by `split_nodes_link`. -/
def linkLiteral (txt url : List Char) : List Char :=
  '[' :: txt ++ ']' :: '(' :: url ++ [')']

/-- The `while True` loop over `current_text` in `split_nodes_image`.  Each
iteration removes a full `![alt](url)` occurrence (at least five characters),
so fuel `current_text.length + 1` never runs out; the fuel-0 branch is dead. -/
def split_nodes_image_loop : Nat → List Char → Except PyErr (List TextNode)
  | 0, _ => .error .indexError
  | fuel + 1, current_text =>
    if current_text ≠ [] ∧ containsSub ['!'] current_text = false then
      (TextNode.mk? current_text TEXT_TYPE_TEXT none).map ([·])
    else
      match extract_markdown_images current_text with
      | [] => (TextNode.mk? current_text TEXT_TYPE_TEXT none).map ([·])
      | (alt, url) :: _ =>
        match splitOnceSub (imageLiteral alt url) current_text with
        | none => .error .indexError
        | some (before, after) =>
          (if before ≠ [] then (TextNode.mk? before TEXT_TYPE_TEXT none).map ([·])
           else .ok []).bind fun pre =>
          (TextNode.mk? alt TEXT_TYPE_IMAGE (some url)).bind fun img =>
          if after ≠ [] then
            (split_nodes_image_loop fuel after).map fun rest => pre ++ img :: rest
          else .ok (pre ++ [img])

/-- `split_nodes_image(old_nodes)`. -/
def split_nodes_image : List TextNode → Except PyErr (List TextNode)
  | [] => .ok []
  | node :: rest =>
    (if node.text_type ≠ TEXT_TYPE_TEXT then .ok [node]
     else split_nodes_image_loop (node.text.length + 1) node.text).bind fun h =>
    (split_nodes_image rest).map fun t => h ++ t

/-- The `while True` loop over `current_text` in `split_nodes_link`; the
`except IndexError` around `links[0]` becomes the `[]` case. -/
def split_nodes_link_loop : Nat → List Char → Except PyErr (List TextNode)
  | 0, _ => .error .indexError
  | fuel + 1, current_text =>
    if current_text ≠ [] ∧ containsSub ['['] current_text = false then
      (TextNode.mk? current_text TEXT_TYPE_TEXT none).map ([·])
    else
      match extract_markdown_links current_text with
      | [] => .error (.valueError "Invalid markdown")
      | (txt, url) :: _ =>
        match splitOnceSub (linkLiteral txt url) current_text with
        | none => .error .indexError
        | some (before, after) =>
          (if before ≠ [] then (TextNode.mk? before TEXT_TYPE_TEXT none).map ([·])
           else .ok []).bind fun pre =>
          (TextNode.mk? txt TEXT_TYPE_LINK (some url)).bind fun lnk =>
          if after ≠ [] then
            (split_nodes_link_loop fuel after).map fun rest => pre ++ lnk :: rest
          else .ok (pre ++ [lnk])

/-- `split_nodes_link(old_nodes)`. -/
def split_nodes_link : List TextNode → Except PyErr (List TextNode)
  | [] => .ok []
  | node :: rest =>
    (if node.text_type ≠ TEXT_TYPE_TEXT then .ok [node]
     else split_nodes_link_loop (node.text.length + 1) node.text).bind fun h =>
    (split_nodes_link rest).map fun t => h ++ t

/-- `text_line_to_text_nodes(text)`: the five-stage inline pipeline.  (The
`try/except ValueError: raise` of the source is the identity on errors.) -/
def text_line_to_text_nodes (text : List Char) : Except PyErr (List TextNode) :=
  (TextNode.mk? text TEXT_TYPE_TEXT none).bind fun n =>
  (split_nodes_image [n]).bind fun ns =>
  (split_nodes_link ns).bind fun ns =>
  (split_nodes_delimiter ns ['*', '*'] TEXT_TYPE_BOLD).bind fun ns =>
  (split_nodes_delimiter ns ['_'] TEXT_TYPE_ITALIC).bind fun ns =>
  split_nodes_delimiter ns [backquote] TEXT_TYPE_CODE

/-! ## `src/src/htmlnode.py` — the HTML node model -/

/-- An HTML tree node: `LeafNode` (tag, value, props) or `ParentNode`
(tag, children, props).  Props are an insertion-ordered association list, as
Python dicts iterate in insertion order. -/
inductive HTMLNode where
  | leaf (tag : Option String) (value : List Char) (props : List (String × List Char))
  | parent (tag : String) (children : List HTMLNode) (props : List (String × List Char))

/-- `HTMLNode.props_to_html`: `'{k}="{v}" '` per prop, then `rstrip()`. -/
def props_to_html (props : List (String × List Char)) : List Char :=
  pyRstrip (props.foldl (fun acc p => acc ++ p.1.toList ++ '=' :: '"' :: p.2 ++ ['"', ' ']) [])

/-- Rendering of one leaf, as in `LeafNode.to_html`: Python's `not self.tag`
treats both `None` and `""` as absent. -/
def leaf_to_html (tag : Option String) (value : List Char)
    (props : List (String × List Char)) : List Char :=
  match tag with
  | none => value
  | some t =>
    if t = "" then value
    else if props = [] then '<' :: t.toList ++ '>' :: value ++ '<' :: '/' :: t.toList ++ ['>']
    else if t = "img" then
      '<' :: t.toList ++ ' ' :: props_to_html props ++ value ++ [' ', '/', '>']
    else
      '<' :: t.toList ++ ' ' :: props_to_html props ++ '>' :: value
        ++ '<' :: '/' :: t.toList ++ ['>']

mutual

/-- `to_html()` over the whole tree (`LeafNode.to_html` / `ParentNode.to_html`).
For a parent: `<tag>` (with a space and the props when present), the children's
renderings in order, `</tag>`. -/
def to_html : HTMLNode → List Char
  | .leaf tag value props => leaf_to_html tag value props
  | .parent tag children props =>
    '<' :: tag.toList
      ++ (if props = [] then ['>'] else ' ' :: props_to_html props ++ ['>'])
      ++ to_html_children children
      ++ '<' :: '/' :: tag.toList ++ ['>']

/-- The `for child in self.children: html_string += child.to_html()` loop. -/
def to_html_children : List HTMLNode → List Char
  | [] => []
  | c :: cs => to_html c ++ to_html_children cs

end

/-- `ParentNode.__init__`: `ValueError` when the tag is absent (`None`) or
empty, or the children are absent (`None`) or an empty list (Python
truthiness `not tag` / `not children or not len(children) > 0`). -/
def ParentNode.mk? (children : Option (List HTMLNode)) (tag : Option String)
    (props : List (String × List Char)) : Except PyErr HTMLNode :=
  match tag with
  | none => .error (.valueError "Tag must be provided for ParentNode")
  | some t =>
    if t = "" then .error (.valueError "Tag must be provided for ParentNode")
    else
      match children with
      | none => .error (.valueError "Children nodes must be provided for ParentNode")
      | some [] => .error (.valueError "Children nodes must be provided for ParentNode")
      | some (c :: cs) => .ok (.parent t (c :: cs) props)

/-- `text_node_to_html_node(text_node)` from `text_functions.py`.  The
`LeafNode` constructor only rejects `value=None`, and every branch passes a
string, so the leaves are built directly; Python would render a missing url as
the string `"None"`. -/
def text_node_to_html_node (tn : TextNode) : Except PyErr HTMLNode :=
  if tn.text_type = TEXT_TYPE_TEXT then .ok (.leaf none tn.text [])
  else if tn.text_type = TEXT_TYPE_BOLD then .ok (.leaf (some "b") tn.text [])
  else if tn.text_type = TEXT_TYPE_ITALIC then .ok (.leaf (some "i") tn.text [])
  else if tn.text_type = TEXT_TYPE_CODE then .ok (.leaf (some "code") tn.text [])
  else if tn.text_type = TEXT_TYPE_LINK then
    .ok (.leaf (some "a") tn.text [("href", tn.url.getD "None".toList)])
  else if tn.text_type = TEXT_TYPE_IMAGE then
    .ok (.leaf (some "img") [] [("src", tn.url.getD "None".toList), ("alt", tn.text)])
  else .error (.valueError "Text Node has invalid type")

/-! ## `src/src/core/markdown_functions.py` — blocks -/

/-- A line-start `` ``` `` fence (`^`{3}` with `re.MULTILINE`). -/
def fenceAt (l : List Char) : Bool := [backquote, backquote, backquote].isPrefixOf l

/-- Index of the first line-start fence; `atStart` says whether the scan
begins at a line start (position 0, or just after a `\n`). -/
def findFenceIdx (atStart : Bool) : List Char → Option Nat
  | [] => none
  | c :: rest =>
    if atStart ∧ fenceAt (c :: rest) then some 0
    else (findFenceIdx (c = '\n') rest).map (· + 1)

/-- The first match of `r"^`{3}\n?[\s\S]*?\n?^`{3}"` (`re.MULTILINE`), split as
`(before, match, after)`.  The lazy body makes the match run from the first
line-start fence to the end of the *next* line-start fence's three backticks.
A lone opening fence with no later line-start fence does not match (and then
no later pair can exist either). -/
def get_codeblock_split (atStart : Bool) (s : List Char) :
    Option (List Char × List Char × List Char) :=
  match findFenceIdx atStart s with
  | none => none
  | some p =>
    -- the closing fence must lie at a later line start; position p+3 is never
    -- a line start (the character at p+2 is a backtick)
    match findFenceIdx false (s.drop (p + 3)) with
    | none => none
    | some q =>
      some (s.take p, (s.drop p).take (q + 6), s.drop (p + q + 6))

/-- `get_non_codeblocks` grouping: gather runs of non-blank stripped lines,
joining each run with `\n` and stripping the result. -/
def group_nonblank (current : List (List Char)) : List (List Char) → List (List Char)
  | [] => if current = [] then [] else [pyStrip (List.intercalate ['\n'] current)]
  | l :: rest =>
    if l = [] then
      (if current = [] then [] else [pyStrip (List.intercalate ['\n'] current)])
        ++ group_nonblank [] rest
    else group_nonblank (current ++ [l]) rest

/-- `get_non_codeblocks(text)`: split on newlines, strip every line, and join
runs of non-blank lines into blocks. -/
def get_non_codeblocks (text : List Char) : List (List Char) :=
  group_nonblank [] ((splitOnChar '\n' text).map pyStrip)

/-- The loop of `markdown_to_blocks` over the code-block matches.  Each match
consumes at least seven characters, so fuel `text.length + 1` never runs out.
`re.finditer` resumes right after a match, where the scan is never at a line
start (a match ends with a backtick). -/
def markdown_to_blocks_go : Nat → Bool → List Char → List (List Char)
  | 0, _, _ => []
  | fuel + 1, atStart, text =>
    match get_codeblock_split atStart text with
    | none => get_non_codeblocks text
    | some (before, code, after) =>
      get_non_codeblocks before ++ code :: markdown_to_blocks_go fuel false after

/-- `markdown_to_blocks(text)`. -/
def markdown_to_blocks (text : List Char) : List (List Char) :=
  markdown_to_blocks_go (text.length + 1) true text

/-- Block-type constants of `markdown_functions.py`. -/
def BLOCK_TYPE_PARAGRAPH : String := "paragraph"

def BLOCK_TYPE_HEADING : String := "heading"

def BLOCK_TYPE_CODE : String := "code"

def BLOCK_TYPE_QUOTE : String := "quote"

def BLOCK_TYPE_UNORD_LIST : String := "unordered_list"

def BLOCK_TYPE_ORD_LIST : String := "ordered_list"

/-- `re.match(r"^#{1,6}\s", block)`: with backtracking, the pattern matches
exactly when the maximal leading run of `#` has length 1–6 and is followed by
a whitespace character. -/
def headingMatch (block : List Char) : Bool :=
  let k := (block.takeWhile (· = '#')).length
  1 ≤ k && k ≤ 6 &&
    (match block.drop k with
     | c :: _ => isPySpace c
     | [] => false)

/-- `line.startswith(">")`. -/
def quoteLineMatch : List Char → Bool
  | '>' :: _ => true
  | _ => false

/-- `re.match(r"^[*-]\s", line)`. -/
def unordLineMatch (line : List Char) : Bool :=
  match line with
  | c1 :: c2 :: _ => (c1 = '*' || c1 = '-') && isPySpace c2
  | _ => false

/-- `re.match(r"^\d+\.\s", line)`: a non-empty maximal digit prefix, then a
dot, then a whitespace character. -/
def ordLineMatch (line : List Char) : Bool :=
  let ds := line.takeWhile Char.isDigit
  ds ≠ [] &&
    (match line.drop ds.length with
     | '.' :: c :: _ => isPySpace c
     | _ => false)

/-- Decimal value of a digit string. -/
def natOfDigits (ds : List Char) : Nat :=
  ds.foldl (fun a c => a * 10 + (c.toNat - '0'.toNat)) 0

/-- `int(line.split(".")[0])`: the characters before the first dot, read as a
decimal number.  (In `get_markdown_block_type` this is only evaluated on lines
matching `^\d+\.\s`, where those characters are exactly the digit prefix.) -/
def intPrefixDot (line : List Char) : Nat :=
  natOfDigits (line.takeWhile (· ≠ '.'))

/-- The `for i, line in enumerate(lines)` sequencing check of the ordered-list
branch: every line's numeric prefix equals its 1-based index. -/
def ordSeqOk (lines : List (List Char)) : Bool :=
  lines.enum.all fun p => intPrefixDot p.2 = p.1 + 1

/-- `get_markdown_block_type(block)`. -/
def get_markdown_block_type (block : List Char) : String :=
  if headingMatch block then BLOCK_TYPE_HEADING
  else if [backquote, backquote, backquote].isPrefixOf block && [backquote, backquote, backquote].isSuffixOf block then
    BLOCK_TYPE_CODE
  else if (splitOnChar '\n' block).all quoteLineMatch then BLOCK_TYPE_QUOTE
  else if (splitOnChar '\n' block).all unordLineMatch then BLOCK_TYPE_UNORD_LIST
  else if (splitOnChar '\n' block).all ordLineMatch then
    if ordSeqOk (splitOnChar '\n' block) then BLOCK_TYPE_ORD_LIST else BLOCK_TYPE_PARAGRAPH
  else BLOCK_TYPE_PARAGRAPH

/-! ## `src/src/core/markdown_functions.py` — block-to-node conversion -/

/-- One scan step of `re.sub(pattern, "", text, flags=re.MULTILINE)` for a
pattern anchored at `^`: `m` returns the length of a match at the current
position (our matchers always return at least 1, so `some 0` never occurs);
`skip` counts characters of a match still to be removed, and the line-start
flag after a removal is determined by the last removed character.  Scanning
resumes after a match in the original string, as `re.sub` does. -/
def pySubGo (m : List Char → Option Nat) : Nat → Bool → List Char → List Char
  | k + 1, _, c :: t => pySubGo m k (c = '\n') t
  | _ + 1, _, [] => []
  | 0, _, [] => []
  | 0, atStart, c :: t =>
    if atStart then
      match m (c :: t) with
      | some (n + 1) => pySubGo m n (c = '\n') t
      | _ => c :: pySubGo m 0 (c = '\n') t
    else c :: pySubGo m 0 (c = '\n') t

/-- `re.sub(pattern, "", text, flags=re.MULTILINE)` for a `^`-anchored
pattern. -/
def pySubLineStart (m : List Char → Option Nat) (text : List Char) : List Char :=
  pySubGo m 0 true text

/-- Matcher for `^>\s`: a `>` followed by one whitespace character (Python's
`\s` also matches a newline). -/
def quoteMatcher : List Char → Option Nat
  | '>' :: c :: _ => if isPySpace c then some 2 else none
  | _ => none

/-- Matcher for `^[*-]\s`. -/
def unordMatcher : List Char → Option Nat
  | c1 :: c2 :: _ => if (c1 = '*' || c1 = '-') && isPySpace c2 then some 2 else none
  | _ => none

/-- Matcher for `^\d+\.\s`. -/
def ordMatcher (l : List Char) : Option Nat :=
  let ds := l.takeWhile Char.isDigit
  if ds ≠ [] then
    match l.drop ds.length with
    | '.' :: c :: _ => if isPySpace c then some (ds.length + 2) else none
    | _ => none
  else none

/-- `markdown_heading_to_text_node(text)`: when the block matches the heading
pattern, *all* `#` characters are removed (`text.replace("#", "")`) and the
result is `lstrip`ped before inline parsing. -/
def markdown_heading_to_text_node (text : List Char) : Except PyErr (List TextNode) :=
  if headingMatch text then text_line_to_text_nodes (pyLstrip (text.filter (· ≠ '#')))
  else text_line_to_text_nodes text

/-- `markdown_quote_to_text_node(text)`: `NotImplementedError` only on the
exact two-character block `"> "`; otherwise `re.sub(r"^>\s", "", text,
flags=re.MULTILINE)` and one inline parse of the joined text. -/
def markdown_quote_to_text_node (text : List Char) : Except PyErr (List TextNode) :=
  if text = ['>', ' '] then .error (.notImplementedError "Empty quotes not supported")
  else text_line_to_text_nodes (pySubLineStart quoteMatcher text)

/-- `markdown_unord_list_to_text_node(text)`. -/
def markdown_unord_list_to_text_node (text : List Char) :
    Except PyErr (List (List TextNode)) :=
  pyMapM (fun line =>
    if line = [] then .error (.notImplementedError "Empty lists not supported")
    else text_line_to_text_nodes line) (splitOnChar '\n' (pySubLineStart unordMatcher text))

/-- `markdown_ord_list_to_text_node(text)`. -/
def markdown_ord_list_to_text_node (text : List Char) :
    Except PyErr (List (List TextNode)) :=
  pyMapM (fun line =>
    if line = [] then .error (.notImplementedError "Empty lists not supported")
    else text_line_to_text_nodes line) (splitOnChar '\n' (pySubLineStart ordMatcher text))

/-- `markdown_paragraph_to_text_node(text)`. -/
def markdown_paragraph_to_text_node (text : List Char) : Except PyErr (List TextNode) :=
  text_line_to_text_nodes text

/-- The per-block dispatch of `markdown_to_html_node`: one HTML node per
block.  The block types are exhaustive, so the final branch is the
ordered-list arm. -/
def block_to_html_node (block : List Char) : Except PyErr HTMLNode :=
  let bt := get_markdown_block_type block
  if bt = BLOCK_TYPE_PARAGRAPH then
    (markdown_paragraph_to_text_node block).bind fun tns =>
    (pyMapM text_node_to_html_node tns).bind fun ch =>
    ParentNode.mk? (some ch) (some "p") []
  else if bt = BLOCK_TYPE_HEADING then
    (markdown_heading_to_text_node block).bind fun tns =>
    (pyMapM text_node_to_html_node tns).bind fun ch =>
    ParentNode.mk? (some ch) (some ("h" ++ Nat.repr (block.count '#'))) []
  else if bt = BLOCK_TYPE_CODE then
    -- LeafNode(value=block[3:-3], tag="pre")
    .ok (.leaf (some "pre") ((block.drop 3).take (block.length - 6)) [])
  else if bt = BLOCK_TYPE_QUOTE then
    (markdown_quote_to_text_node block).bind fun tns =>
    (pyMapM text_node_to_html_node tns).bind fun ch =>
    ParentNode.mk? (some ch) (some "blockquote") []
  else if bt = BLOCK_TYPE_UNORD_LIST then
    (markdown_unord_list_to_text_node block).bind fun itemss =>
    (pyMapM (fun (tns : List TextNode) =>
      (pyMapM text_node_to_html_node tns).bind fun ch =>
      ParentNode.mk? (some ch) (some "li") []) itemss).bind fun lis =>
    ParentNode.mk? (some lis) (some "ul") []
  else
    (markdown_ord_list_to_text_node block).bind fun itemss =>
    (pyMapM (fun (tns : List TextNode) =>
      (pyMapM text_node_to_html_node tns).bind fun ch =>
      ParentNode.mk? (some ch) (some "li") []) itemss).bind fun lis =>
    ParentNode.mk? (some lis) (some "ol") []

/-- `markdown_to_html_node(text)`. -/
def markdown_to_html_node (text : List Char) : Except PyErr HTMLNode :=
  if text = [] then .error (.valueError "Empty markdown input")
  else
    (pyMapM block_to_html_node (markdown_to_blocks text)).bind fun nodes =>
    ParentNode.mk? (some nodes) (some "div") []

/-! ## `src/src/core/generate.py` — title extraction -/

/-- The per-line match of `re.search(r"^# +(.+)$", text, re.MULTILINE)`: a
`#`, one or more *space* characters, then at least one more character up to
the end of the line.  With the greedy `" +"` backtracking once when the rest
of the line is all spaces, the captured group is the text after the spaces
when non-empty, and a single space when the line is `#` followed by two or
more spaces only. -/
def line_title_match (line : List Char) : Option (List Char) :=
  match line with
  | '#' :: rest =>
    let sp := rest.takeWhile (· = ' ')
    let tl := rest.drop sp.length
    if sp.length = 0 then none
    else if tl ≠ [] then some tl
    else if 2 ≤ sp.length then some [' ']
    else none
  | _ => none

/-- `extract_title(text)`: since `^`/`$` anchor the pattern inside a single
line and `.` does not match `\n`, the leftmost `re.search` match is the match
on the first matching line. -/
def extract_title (text : List Char) : Except PyErr (List Char) :=
  match (splitOnChar '\n' text).findSome? line_title_match with
  | some t => .ok t
  | none => .error (.valueError "Invalid markdown without any h1 header")

/-! ## Definitions following the claims' words (for refinement comparisons) -/

/-- Modelled from the spec: the claim C7 states the title pattern as
`^#\s+(.+)$`, with the whitespace class `\s` rather than the space character
used by the code.  This is `line_title_match` with `\s`. -/
def spec_title_line (line : List Char) : Option (List Char) :=
  match line with
  | '#' :: rest =>
    let sp := rest.takeWhile fun c => isPySpace c && c ≠ '\n'
    let tl := rest.drop sp.length
    if sp.length = 0 then none
    else if tl ≠ [] then some tl
    else if 2 ≤ sp.length then some (sp.take 1)
    else none
  | _ => none

/-- Modelled from the spec: a line matching the title pattern, stated as the
claim words it — a `#`, one or more spaces, then a non-empty remainder
(`^# +(.+)$` after amendment; the original claim wrote `\s` for the spaces,
see `spec_title_line`). -/
def TitleLineSpec (l : List Char) : Prop :=
  ∃ k r, l = '#' :: List.replicate k ' ' ++ r ∧ 1 ≤ k ∧ r ≠ []

/-- Modelled from the spec: the captured group of `^# +(.+)$` — the remainder
after the maximal run of spaces, except that a line of `#` followed only by
two or more spaces captures a single space (the greedy `" +"` gives one space
back to `(.+)`). -/
def titleGroupSpec (l : List Char) : List Char :=
  let r := (l.drop 1).dropWhile (· = ' ')
  if r = [] then [' '] else r

/-- Lines joined with single newlines (used to state block shapes in the
theorems below). -/
def joinLines : List (List Char) → List Char
  | [] => []
  | [l] => l
  | l :: ls => l ++ '\n' :: joinLines ls

-- Decidable equality of results, for evaluating concrete runs.
deriving instance DecidableEq for Except

/-! # Theorems -/

/-- C9: `ParentNode` construction fails with `InvalidNode` (a `ValueError`)
exactly when the tag is empty or absent or the children sequence is empty or
absent; every successfully constructed parent node has a non-empty tag and at
least one child, so a parent with zero children is never representable. -/
theorem C9_parent_node_invariant :
    (∀ (children : Option (List HTMLNode)) (tag : Option String)
        (props : List (String × List Char)),
      (∃ e, ParentNode.mk? children tag props = .error e) ↔
        tag = none ∨ tag = some "" ∨ children = none ∨ children = some []) ∧
    (∀ children tag props n, ParentNode.mk? children tag props = .ok n →
      ∃ t cs, tag = some t ∧ children = some cs ∧ t ≠ "" ∧ cs ≠ [] ∧
        n = .parent t cs props) := by
  constructor
  · intro children tag props
    rcases tag with _ | t
    · simp [ParentNode.mk?]
    · by_cases ht : t = ""
      · subst ht
        simp [ParentNode.mk?]
      · rcases children with _ | cs
        · simp [ParentNode.mk?, ht]
        · rcases cs with _ | ⟨c, cs⟩
          · simp [ParentNode.mk?, ht]
          · simp [ParentNode.mk?, ht]
  · intro children tag props n h
    rcases tag with _ | t
    · simp [ParentNode.mk?] at h
    · by_cases ht : t = ""
      · subst ht
        simp [ParentNode.mk?] at h
      · rcases children with _ | cs
        · simp [ParentNode.mk?, ht] at h
        · rcases cs with _ | ⟨c, cs⟩
          · simp [ParentNode.mk?, ht] at h
          · simp [ParentNode.mk?, ht] at h
            exact ⟨t, c :: cs, rfl, rfl, ht, by simp, h.symm⟩

/-- C9 witness: a concrete successful construction. -/
theorem C9_parent_node_invariant_witness :
    ∃ t cs, some "p" = some t ∧ some [HTMLNode.leaf none ['x'] []] = some cs ∧
      t ≠ "" ∧ cs ≠ [] ∧
      HTMLNode.parent "p" [HTMLNode.leaf none ['x'] []] [] = .parent t cs [] :=
  C9_parent_node_invariant.2 (some [HTMLNode.leaf none ['x'] []]) (some "p") []
    (HTMLNode.parent "p" [HTMLNode.leaf none ['x'] []] []) rfl

/-- C1 counterexample: a Link span whose text contains `**` is *not* left
unchanged by the bold stage — `split_nodes_delimiter` re-splits every
`TextNode` containing the delimiter regardless of its `text_type`, so the
single Link span becomes a Plain/Bold/Plain triple and its link type and url
are destroyed. -/
theorem C1_counterexample :
    split_nodes_delimiter [⟨"x**y**z".toList, "link", some ['u']⟩] ['*', '*'] "bold" =
      .ok [⟨['x'], "text", none⟩, ⟨['y'], "bold", none⟩, ⟨['z'], "text", none⟩] ∧
    split_nodes_delimiter [⟨"x**y**z".toList, "link", some ['u']⟩] ['*', '*'] "bold" ≠
      .ok [⟨"x**y**z".toList, "link", some ['u']⟩] :=
  ⟨rfl, by decide⟩

/-- C2 counterexample: on the heading block `# a #b` the converter removes the
`#` inside the heading text as well (rendering `a b`, not `a #b`) and the tag
counts every `#` of the block (`h2`, not `h1`), so the rendered document is
`<div><h2>a b</h2></div>` and not `<div><h1>a #b</h1></div>` as the claim
requires. -/
theorem C2_counterexample :
    (markdown_to_html_node "# a #b".toList).map to_html =
      .ok "<div><h2>a b</h2></div>".toList ∧
    "<div><h2>a b</h2></div>" ≠ "<div><h1>a #b</h1></div>" :=
  ⟨rfl, by decide⟩

/-- C3 counterexample: the segment `![a](u_v)` contains an odd number (one) of
occurrences of the italic delimiter `_`, yet the inline span parser succeeds:
the underscore sits inside the image url, which is absorbed into the Image
span's target and never reaches the delimiter stage. -/
theorem C3_counterexample :
    countOcc ['_'] "![a](u_v)".toList = 1 ∧
    text_line_to_text_nodes "![a](u_v)".toList =
      .ok [⟨['a'], "image", some "u_v".toList⟩] :=
  ⟨rfl, rfl⟩

/-- C4 counterexample: on the quote block `> a\n>\n> b` the code does not
strip a bare `>` as the claim says — `re.sub(r"^>\s", "")` matches the bare
`>` *together with its newline*, merging the lines: the result is the single
Plain span `a\nb`, not `a\n\nb`. -/
theorem C4_counterexample :
    markdown_quote_to_text_node "> a\n>\n> b".toList =
      .ok [⟨"a\nb".toList, "text", none⟩] ∧
    markdown_quote_to_text_node "> a\n>\n> b".toList ≠
      .ok [⟨"a\n\nb".toList, "text", none⟩] :=
  ⟨rfl, by decide⟩

/-- C5: evaluating the code at the failing input — the paragraph
`*italic word*` stays one unsplit Plain span (the pipeline splits italics on
`_`, not `*`) and the document renders as `<div><p>*italic word*</p></div>`
instead of the `<div><p><i>italic word</i></p></div>` required by the claim
and by the repository's own tests. -/
theorem C5_italic_star_stays_plain :
    text_line_to_text_nodes "*italic word*".toList =
      .ok [⟨"*italic word*".toList, "text", none⟩] ∧
    (markdown_to_html_node "*italic word*".toList).map to_html =
      .ok "<div><p>*italic word*</p></div>".toList :=
  ⟨rfl, rfl⟩

/-- C7 counterexample: the line `#\tT` matches the claim's pattern
`^#\s+(.+)$` (a tab is `\s`) with captured group `T`, but the code's pattern
`^# +(.+)$` accepts only spaces, so `extract_title` fails on this source. -/
theorem C7_counterexample :
    extract_title "#\tT".toList =
      .error (.valueError "Invalid markdown without any h1 header") ∧
    spec_title_line "#\tT".toList = some ['T'] :=
  ⟨rfl, rfl⟩

/-- Nodes that are not Plain (`text_type ≠ "text"`) pass through
`split_nodes_image` unchanged. -/
theorem split_nodes_image_skip_typed (nodes : List TextNode)
    (h : ∀ n ∈ nodes, n.text_type ≠ TEXT_TYPE_TEXT) :
    split_nodes_image nodes = .ok nodes := by
  induction nodes with
  | nil => rfl
  | cons node rest ih =>
    have h1 : node.text_type ≠ TEXT_TYPE_TEXT := h node (List.mem_cons_self _ _)
    have h2 := ih fun n hn => h n (List.mem_cons_of_mem _ hn)
    simp [split_nodes_image, h1, h2, Except.bind, Except.map]

/-- Nodes that are not Plain pass through `split_nodes_link` unchanged. -/
theorem split_nodes_link_skip_typed (nodes : List TextNode)
    (h : ∀ n ∈ nodes, n.text_type ≠ TEXT_TYPE_TEXT) :
    split_nodes_link nodes = .ok nodes := by
  induction nodes with
  | nil => rfl
  | cons node rest ih =>
    have h1 : node.text_type ≠ TEXT_TYPE_TEXT := h node (List.mem_cons_self _ _)
    have h2 := ih fun n hn => h n (List.mem_cons_of_mem _ hn)
    simp [split_nodes_link, h1, h2, Except.bind, Except.map]

/-- Nodes whose text does not contain the delimiter pass through
`split_nodes_delimiter` unchanged (whatever their type). -/
theorem split_nodes_delimiter_skip (nodes : List TextNode) (d : List Char) (tt : String)
    (h : ∀ n ∈ nodes, containsSub d n.text = false) :
    split_nodes_delimiter nodes d tt = .ok nodes := by
  induction nodes with
  | nil => rfl
  | cons node rest ih =>
    have h1 : containsSub d node.text = false := h node (List.mem_cons_self _ _)
    have h2 := ih fun n hn => h n (List.mem_cons_of_mem _ hn)
    simp [split_nodes_delimiter, process_delim_node, h1, h2, Except.bind, Except.map]

/-- A needle whose first character does not occur in the haystack is not a
substring. -/
theorem containsSub_head_not_mem {c : Char} {d t : List Char} (h : c ∉ t) :
    containsSub (c :: d) t = false := by
  induction t with
  | nil => rfl
  | cons x t ih =>
    have hx : (c == x) = false := by
      have hne : c ≠ x := fun he => h (he ▸ List.mem_cons_self x t)
      simpa using hne
    have ht : c ∉ t := fun hm => h (List.mem_cons_of_mem _ hm)
    simp [containsSub, List.isPrefixOf, hx, ih ht]

/-- C1 (amended): already-typed spans pass unchanged through the image and
link stages, which skip every non-Plain `TextNode`; a delimiter stage (bold,
italic, code) passes a span unchanged only when its text does not contain the
delimiter — it is blind to the span's type, so a typed span whose text
contains the delimiter is re-split (see `C1_counterexample`). -/
theorem C1_typed_spans_pass_through :
    (∀ nodes : List TextNode, (∀ n ∈ nodes, n.text_type ≠ TEXT_TYPE_TEXT) →
      split_nodes_image nodes = .ok nodes ∧ split_nodes_link nodes = .ok nodes) ∧
    (∀ (nodes : List TextNode) (d : List Char) (tt : String),
      (∀ n ∈ nodes, containsSub d n.text = false) →
      split_nodes_delimiter nodes d tt = .ok nodes) :=
  ⟨fun nodes h => ⟨split_nodes_image_skip_typed nodes h, split_nodes_link_skip_typed nodes h⟩,
    fun nodes d tt h => split_nodes_delimiter_skip nodes d tt h⟩

/-- C1 witness: a concrete Bold span passes the image, link and (delimiter-free)
bold stages unchanged. -/
theorem C1_typed_spans_pass_through_witness :
    split_nodes_image [⟨['y'], "bold", none⟩] = .ok [⟨['y'], "bold", none⟩] ∧
    split_nodes_link [⟨['y'], "bold", none⟩] = .ok [⟨['y'], "bold", none⟩] ∧
    split_nodes_delimiter [⟨['y'], "bold", none⟩] ['*', '*'] "bold" =
      .ok [⟨['y'], "bold", none⟩] := by
  refine ⟨(C1_typed_spans_pass_through.1 _ ?_).1, (C1_typed_spans_pass_through.1 _ ?_).2,
    C1_typed_spans_pass_through.2 _ ['*', '*'] "bold" ?_⟩ <;> decide

/-- A Plain node whose text is non-empty and free of `!` passes the image
stage as a single Plain node. -/
theorem split_nodes_image_plain_no_bang (t : List Char) (hne : t ≠ [])
    (hex : containsSub ['!'] t = false) :
    split_nodes_image [⟨t, TEXT_TYPE_TEXT, none⟩] = .ok [⟨t, TEXT_TYPE_TEXT, none⟩] := by
  simp [split_nodes_image, split_nodes_image_loop, hne, hex, TextNode.mk?, TEXT_TYPE_TEXT,
    Except.bind, Except.map]

/-- A Plain node whose text is non-empty and free of `[` passes the link
stage as a single Plain node. -/
theorem split_nodes_link_plain_no_bracket (t : List Char) (hne : t ≠ [])
    (hbr : containsSub ['['] t = false) :
    split_nodes_link [⟨t, TEXT_TYPE_TEXT, none⟩] = .ok [⟨t, TEXT_TYPE_TEXT, none⟩] := by
  simp [split_nodes_link, split_nodes_link_loop, hne, hbr, TextNode.mk?, TEXT_TYPE_TEXT,
    Except.bind, Except.map]

/-- C8: a non-empty text segment containing none of the inline delimiter
characters (`*`, `_`, backtick), no `!` and no `[` parses to exactly one
Plain span whose content is the input, unchanged. -/
theorem C8_plain_text_round_trip (t : List Char) (hne : t ≠ [])
    (h : ∀ c ∈ t, c ≠ '*' ∧ c ≠ '_' ∧ c ≠ backquote ∧ c ≠ '!' ∧ c ≠ '[') :
    text_line_to_text_nodes t = .ok [⟨t, TEXT_TYPE_TEXT, none⟩] := by
  have hst : containsSub ['*', '*'] t = false :=
    containsSub_head_not_mem fun hm => (h _ hm).1 rfl
  have hun : containsSub ['_'] t = false :=
    containsSub_head_not_mem fun hm => (h _ hm).2.1 rfl
  have hbt : containsSub [backquote] t = false :=
    containsSub_head_not_mem fun hm => (h _ hm).2.2.1 rfl
  have hex : containsSub ['!'] t = false :=
    containsSub_head_not_mem fun hm => (h _ hm).2.2.2.1 rfl
  have hbr : containsSub ['['] t = false :=
    containsSub_head_not_mem fun hm => (h _ hm).2.2.2.2 rfl
  have hmk : TextNode.mk? t TEXT_TYPE_TEXT none = .ok ⟨t, TEXT_TYPE_TEXT, none⟩ := by
    simp [TextNode.mk?, hne, TEXT_TYPE_TEXT]
  have himg := split_nodes_image_plain_no_bang t hne hex
  have hlnk := split_nodes_link_plain_no_bracket t hne hbr
  have hb := split_nodes_delimiter_skip [⟨t, TEXT_TYPE_TEXT, none⟩] ['*', '*'] TEXT_TYPE_BOLD
    (by intro n hn; rw [List.mem_singleton] at hn; subst hn; exact hst)
  have hi := split_nodes_delimiter_skip [⟨t, TEXT_TYPE_TEXT, none⟩] ['_'] TEXT_TYPE_ITALIC
    (by intro n hn; rw [List.mem_singleton] at hn; subst hn; exact hun)
  have hc := split_nodes_delimiter_skip [⟨t, TEXT_TYPE_TEXT, none⟩] [backquote] TEXT_TYPE_CODE
    (by intro n hn; rw [List.mem_singleton] at hn; subst hn; exact hbt)
  simp [text_line_to_text_nodes, hmk, himg, hlnk, TEXT_TYPE_BOLD, TEXT_TYPE_ITALIC,
    TEXT_TYPE_CODE, Except.bind] at hb hi hc ⊢
  simp [hb, hi, hc]

/-- C8 witness: a concrete delimiter-free segment. -/
theorem C8_plain_text_round_trip_witness :
    text_line_to_text_nodes "hello world".toList =
      .ok [⟨"hello world".toList, TEXT_TYPE_TEXT, none⟩] :=
  C8_plain_text_round_trip "hello world".toList (by decide) (by decide)

/-- If the needle is not a substring, its occurrence count is zero. -/
theorem countOccGo_zero_of_not_contains (c : Char) (d' t : List Char)
    (h : containsSub (c :: d') t = false) : countOccGo (c :: d') 0 t = 0 := by
  induction t with
  | nil => rfl
  | cons x t ih =>
    rw [containsSub] at h
    by_cases hp : (c :: d').isPrefixOf (x :: t) = true
    · simp [hp] at h
    · have hb : (c :: d').isPrefixOf (x :: t) = false := by
        cases hpp : (c :: d').isPrefixOf (x :: t) with
        | true => exact absurd hpp hp
        | false => rfl
      simp [hb] at h
      simp [countOccGo, hb, ih h]

/-- A delimiter with an odd occurrence count does occur (`odd ≥ 1`). -/
theorem containsSub_of_countOcc_odd {d t : List Char}
    (h : countOcc d t % 2 = 1) : containsSub d t = true := by
  rcases d with _ | ⟨c, d'⟩
  · cases t <;> simp [containsSub, List.isPrefixOf]
  · by_cases hc : containsSub (c :: d') t = true
    · exact hc
    · have hb : containsSub (c :: d') t = false := by
        cases hpp : containsSub (c :: d') t with
        | true => exact absurd hpp hc
        | false => rfl
      have h0 : countOcc (c :: d') t = 0 := by
        simp [countOcc, countOccGo_zero_of_not_contains c d' t hb]
      rw [h0] at h
      simp at h

/-- An odd occurrence count makes `split_nodes_delimiter` raise the
`ValueError("Invalid markdown syntax")` for that node. -/
theorem process_delim_node_error_of_odd (n : TextNode) (d : List Char) (tt : String)
    (h : countOcc d n.text % 2 = 1) :
    process_delim_node n d tt = .error (.valueError "Invalid markdown syntax") := by
  have hc := containsSub_of_countOcc_odd h
  have hodd : countOcc d n.text % 2 ≠ 0 := by omega
  simp [process_delim_node, hc, hodd]

/-- C3 (amended): at the level of a delimiter stage the balance check holds —
if some node handed to `split_nodes_delimiter` contains an odd number of
non-overlapping occurrences of the delimiter, the stage fails, and on a single
such node it fails precisely with `ValueError("Invalid markdown syntax")`.
(At the whole-segment level the claim is false: a delimiter inside an image or
link url is absorbed into the span target, see `C3_counterexample`.) -/
theorem C3_odd_delimiter_stage_fails :
    (∀ (nodes : List TextNode) (d : List Char) (tt : String),
      (∃ n ∈ nodes, countOcc d n.text % 2 = 1) →
      ∃ e, split_nodes_delimiter nodes d tt = .error e) ∧
    (∀ (n : TextNode) (d : List Char) (tt : String),
      countOcc d n.text % 2 = 1 →
      split_nodes_delimiter [n] d tt = .error (.valueError "Invalid markdown syntax")) := by
  constructor
  · intro nodes d tt
    induction nodes with
    | nil => rintro ⟨n, hn, _⟩; exact absurd hn (List.not_mem_nil n)
    | cons m rest ih =>
      rintro ⟨n, hn, hodd⟩
      rcases List.mem_cons.mp hn with rfl | hmem
      · exact ⟨.valueError "Invalid markdown syntax",
          by simp [split_nodes_delimiter, process_delim_node_error_of_odd n d tt hodd]⟩
      · cases hp : process_delim_node m d tt with
        | error e => exact ⟨e, by simp [split_nodes_delimiter, hp]⟩
        | ok h =>
          obtain ⟨e, he⟩ := ih ⟨n, hmem, hodd⟩
          exact ⟨e, by simp [split_nodes_delimiter, hp, he]⟩
  · intro n d tt h
    simp [split_nodes_delimiter, process_delim_node_error_of_odd n d tt h]

/-- C3 witness: the code stage fails on a single Plain node with one backtick. -/
theorem C3_odd_delimiter_stage_fails_witness :
    split_nodes_delimiter [⟨"a`b".toList, "text", none⟩] [backquote] "code" =
      .error (.valueError "Invalid markdown syntax") :=
  C3_odd_delimiter_stage_fails.2 ⟨"a`b".toList, "text", none⟩ [backquote] "code" (by decide)

/-- Inversion for `TextNode.mk?`: a successful construction returns exactly
the requested fields, and the text is non-empty. -/
theorem TextNode.mk?_ok {t : List Char} {tt : String} {u : Option (List Char)} {n : TextNode}
    (h : TextNode.mk? t tt u = .ok n) : n.text = t ∧ t ≠ [] := by
  unfold TextNode.mk? at h
  by_cases h1 : t = []
  · rw [if_pos h1] at h
    cases h
  · rw [if_neg h1] at h
    by_cases h2 : tt = ""
    · rw [if_pos h2] at h
      cases h
    · rw [if_neg h2] at h
      cases h
      exact ⟨rfl, h1⟩

/-- Elements of a successful `pyMapM` all satisfy any property the mapped
function guarantees of its results. -/
theorem pyMapM_ok_forall {f : α → Except PyErr β} {P : β → Prop}
    (hf : ∀ a b, f a = .ok b → P b) :
    ∀ {l : List α} {out : List β}, pyMapM f l = .ok out → ∀ b ∈ out, P b := by
  intro l
  induction l with
  | nil =>
    intro out h b hb
    cases h
    exact absurd hb (List.not_mem_nil b)
  | cons a as ih =>
    intro out h b hb
    rw [pyMapM] at h
    cases ha : f a with
    | error e => rw [ha] at h; cases h
    | ok b0 =>
      rw [ha] at h
      cases has : pyMapM f as with
      | error e => rw [has] at h; cases h
      | ok bs =>
        rw [has] at h
        simp [Except.bind, Except.map] at h
        subst h
        rcases List.mem_cons.mp hb with rfl | hmem
        · exact hf a b ha
        · exact ih has b hmem

/-- `process_delim_node` only emits nodes with non-empty text (given the
input node has non-empty text). -/
theorem process_delim_node_texts {n : TextNode} {d : List Char} {tt : String}
    {out : List TextNode} (hne : n.text ≠ [])
    (hok : process_delim_node n d tt = .ok out) : ∀ m ∈ out, m.text ≠ [] := by
  unfold process_delim_node at hok
  by_cases h1 : containsSub d n.text = false
  · rw [if_pos h1] at hok
    cases hok
    intro m hm
    rw [List.mem_singleton] at hm
    subst hm
    exact hne
  · rw [if_neg h1] at hok
    by_cases h2 : countOcc d n.text % 2 ≠ 0
    · rw [if_pos h2] at hok
      cases hok
    · rw [if_neg h2] at hok
      cases hep : extract_parts d n.text with
      | error e => rw [hep] at hok; cases hok
      | ok parts =>
        rw [hep] at hok
        dsimp only at hok
        cases parts with
        | nil => cases hok
        | cons p0 ps =>
          dsimp only at hok
          by_cases h3 : p0 = n.text ∧ ¬ (d.isPrefixOf p0 = true)
          · rw [if_pos h3] at hok
            cases hok
            intro m hm
            rw [List.mem_singleton] at hm
            subst hm
            exact hne
          · rw [if_neg h3] at hok
            refine pyMapM_ok_forall ?_ hok
            intro part m hpm
            by_cases hp : d.isPrefixOf part = true
            · rw [if_pos hp] at hpm
              have h := TextNode.mk?_ok hpm
              rw [h.1]
              exact h.2
            · rw [if_neg hp] at hpm
              have h := TextNode.mk?_ok hpm
              rw [h.1]
              exact h.2

/-- `split_nodes_delimiter` only emits nodes with non-empty text. -/
theorem split_nodes_delimiter_texts {d : List Char} {tt : String} :
    ∀ {ns out : List TextNode}, (∀ n ∈ ns, n.text ≠ []) →
      split_nodes_delimiter ns d tt = .ok out → ∀ m ∈ out, m.text ≠ [] := by
  intro ns
  induction ns with
  | nil =>
    intro out _ h m hm
    cases h
    exact absurd hm (List.not_mem_nil m)
  | cons n rest ih =>
    intro out hin h m hm
    rw [split_nodes_delimiter] at h
    cases hp : process_delim_node n d tt with
    | error e => rw [hp] at h; cases h
    | ok hd =>
      rw [hp] at h
      cases hr : split_nodes_delimiter rest d tt with
      | error e => rw [hr] at h; cases h
      | ok tl =>
        rw [hr] at h
        cases h
        rcases List.mem_append.mp hm with hmem | hmem
        · exact process_delim_node_texts (hin n (List.mem_cons_self _ _)) hp m hmem
        · exact ih (fun x hx => hin x (List.mem_cons_of_mem _ hx)) hr m hmem

/-- The image-stage loop only emits nodes with non-empty text. -/
theorem split_nodes_image_loop_texts :
    ∀ {fuel : Nat} {cur : List Char} {out : List TextNode},
      split_nodes_image_loop fuel cur = .ok out → ∀ m ∈ out, m.text ≠ [] := by
  intro fuel
  induction fuel with
  | zero => intro cur out h; cases h
  | succ f ih =>
    intro cur out h m hm
    rw [split_nodes_image_loop] at h
    by_cases h1 : cur ≠ [] ∧ containsSub ['!'] cur = false
    · rw [if_pos h1] at h
      cases hmk : TextNode.mk? cur TEXT_TYPE_TEXT none with
      | error e => rw [hmk] at h; cases h
      | ok n0 =>
        rw [hmk] at h
        simp [Except.map] at h
        subst h
        rw [List.mem_singleton] at hm
        subst hm
        have hn := TextNode.mk?_ok hmk
        rw [hn.1]
        exact hn.2
    · rw [if_neg h1] at h
      cases hextr : extract_markdown_images cur with
      | nil =>
        rw [hextr] at h
        cases hmk : TextNode.mk? cur TEXT_TYPE_TEXT none with
        | error e => rw [hmk] at h; cases h
        | ok n0 =>
          rw [hmk] at h
          simp [Except.map] at h
          subst h
          rw [List.mem_singleton] at hm
          subst hm
          have hn := TextNode.mk?_ok hmk
          rw [hn.1]
          exact hn.2
      | cons pr rest =>
        rw [hextr] at h
        obtain ⟨alt, url⟩ := pr
        dsimp only at h
        cases hsp : splitOnceSub (imageLiteral alt url) cur with
        | none => rw [hsp] at h; cases h
        | some p =>
          rw [hsp] at h
          obtain ⟨before, after⟩ := p
          dsimp only at h
          have hpre :
              ∀ {pre : List TextNode},
                (if before ≠ [] then (TextNode.mk? before TEXT_TYPE_TEXT none).map ([·])
                 else .ok []) = .ok pre → ∀ x ∈ pre, x.text ≠ [] := by
            intro pre hpre x hx
            by_cases hb : before ≠ []
            · rw [if_pos hb] at hpre
              cases hmk : TextNode.mk? before TEXT_TYPE_TEXT none with
              | error e => rw [hmk] at hpre; cases hpre
              | ok n0 =>
                rw [hmk] at hpre
                simp [Except.map] at hpre
                subst hpre
                rw [List.mem_singleton] at hx
                subst hx
                have hn := TextNode.mk?_ok hmk
                rw [hn.1]
                exact hn.2
            · rw [if_neg hb] at hpre
              cases hpre
              exact absurd hx (List.not_mem_nil x)
          cases hprr :
              (if before ≠ [] then (TextNode.mk? before TEXT_TYPE_TEXT none).map ([·])
               else (.ok [] : Except PyErr (List TextNode))) with
          | error e => rw [hprr] at h; cases h
          | ok pre =>
            rw [hprr] at h
            simp only [Except.bind] at h
            cases hmi : TextNode.mk? alt TEXT_TYPE_IMAGE (some url) with
            | error e => rw [hmi] at h; cases h
            | ok img =>
              rw [hmi] at h
              dsimp only at h
              by_cases ha : after ≠ []
              · rw [if_pos ha] at h
                cases hrec : split_nodes_image_loop f after with
                | error e => rw [hrec] at h; cases h
                | ok rest2 =>
                  rw [hrec] at h
                  simp [Except.map] at h
                  subst h
                  rcases List.mem_append.mp hm with hmem | hmem
                  · exact hpre hprr m hmem
                  · rcases List.mem_cons.mp hmem with rfl | hmem2
                    · have hn := TextNode.mk?_ok hmi
                      rw [hn.1]
                      exact hn.2
                    · exact ih hrec m hmem2
              · rw [if_neg ha] at h
                cases h
                rcases List.mem_append.mp hm with hmem | hmem
                · exact hpre hprr m hmem
                · rw [List.mem_singleton] at hmem
                  subst hmem
                  have hn := TextNode.mk?_ok hmi
                  rw [hn.1]
                  exact hn.2

/-- The link-stage loop only emits nodes with non-empty text. -/
theorem split_nodes_link_loop_texts :
    ∀ {fuel : Nat} {cur : List Char} {out : List TextNode},
      split_nodes_link_loop fuel cur = .ok out → ∀ m ∈ out, m.text ≠ [] := by
  intro fuel
  induction fuel with
  | zero => intro cur out h; cases h
  | succ f ih =>
    intro cur out h m hm
    rw [split_nodes_link_loop] at h
    by_cases h1 : cur ≠ [] ∧ containsSub ['['] cur = false
    · rw [if_pos h1] at h
      cases hmk : TextNode.mk? cur TEXT_TYPE_TEXT none with
      | error e => rw [hmk] at h; cases h
      | ok n0 =>
        rw [hmk] at h
        simp [Except.map] at h
        subst h
        rw [List.mem_singleton] at hm
        subst hm
        have hn := TextNode.mk?_ok hmk
        rw [hn.1]
        exact hn.2
    · rw [if_neg h1] at h
      cases hextr : extract_markdown_links cur with
      | nil => rw [hextr] at h; cases h
      | cons pr rest =>
        rw [hextr] at h
        obtain ⟨txt, url⟩ := pr
        dsimp only at h
        cases hsp : splitOnceSub (linkLiteral txt url) cur with
        | none => rw [hsp] at h; cases h
        | some p =>
          rw [hsp] at h
          obtain ⟨before, after⟩ := p
          dsimp only at h
          have hpre :
              ∀ {pre : List TextNode},
                (if before ≠ [] then (TextNode.mk? before TEXT_TYPE_TEXT none).map ([·])
                 else .ok []) = .ok pre → ∀ x ∈ pre, x.text ≠ [] := by
            intro pre hpre x hx
            by_cases hb : before ≠ []
            · rw [if_pos hb] at hpre
              cases hmk : TextNode.mk? before TEXT_TYPE_TEXT none with
              | error e => rw [hmk] at hpre; cases hpre
              | ok n0 =>
                rw [hmk] at hpre
                simp [Except.map] at hpre
                subst hpre
                rw [List.mem_singleton] at hx
                subst hx
                have hn := TextNode.mk?_ok hmk
                rw [hn.1]
                exact hn.2
            · rw [if_neg hb] at hpre
              cases hpre
              exact absurd hx (List.not_mem_nil x)
          cases hprr :
              (if before ≠ [] then (TextNode.mk? before TEXT_TYPE_TEXT none).map ([·])
               else (.ok [] : Except PyErr (List TextNode))) with
          | error e => rw [hprr] at h; cases h
          | ok pre =>
            rw [hprr] at h
            simp only [Except.bind] at h
            cases hmi : TextNode.mk? txt TEXT_TYPE_LINK (some url) with
            | error e => rw [hmi] at h; cases h
            | ok lnk =>
              rw [hmi] at h
              dsimp only at h
              by_cases ha : after ≠ []
              · rw [if_pos ha] at h
                cases hrec : split_nodes_link_loop f after with
                | error e => rw [hrec] at h; cases h
                | ok rest2 =>
                  rw [hrec] at h
                  simp [Except.map] at h
                  subst h
                  rcases List.mem_append.mp hm with hmem | hmem
                  · exact hpre hprr m hmem
                  · rcases List.mem_cons.mp hmem with rfl | hmem2
                    · have hn := TextNode.mk?_ok hmi
                      rw [hn.1]
                      exact hn.2
                    · exact ih hrec m hmem2
              · rw [if_neg ha] at h
                cases h
                rcases List.mem_append.mp hm with hmem | hmem
                · exact hpre hprr m hmem
                · rw [List.mem_singleton] at hmem
                  subst hmem
                  have hn := TextNode.mk?_ok hmi
                  rw [hn.1]
                  exact hn.2

/-- `split_nodes_image` only emits nodes with non-empty text. -/
theorem split_nodes_image_texts :
    ∀ {ns out : List TextNode}, (∀ n ∈ ns, n.text ≠ []) →
      split_nodes_image ns = .ok out → ∀ m ∈ out, m.text ≠ [] := by
  intro ns
  induction ns with
  | nil =>
    intro out _ h m hm
    cases h
    exact absurd hm (List.not_mem_nil m)
  | cons n rest ih =>
    intro out hin h m hm
    rw [split_nodes_image] at h
    cases hh :
        (if n.text_type ≠ TEXT_TYPE_TEXT then (.ok [n] : Except PyErr (List TextNode))
         else split_nodes_image_loop (n.text.length + 1) n.text) with
    | error e => rw [hh] at h; simp [Except.bind] at h
    | ok hd =>
      rw [hh] at h
      simp only [Except.bind] at h
      cases hr : split_nodes_image rest with
      | error e => rw [hr] at h; cases h
      | ok tl =>
        rw [hr] at h
        simp [Except.map] at h
        subst h
        have hhd : ∀ x ∈ hd, x.text ≠ [] := by
          by_cases ht : n.text_type ≠ TEXT_TYPE_TEXT
          · rw [if_pos ht] at hh
            cases hh
            intro x hx
            rw [List.mem_singleton] at hx
            subst hx
            exact hin _ (List.mem_cons_self _ _)
          · rw [if_neg ht] at hh
            exact split_nodes_image_loop_texts hh
        rcases List.mem_append.mp hm with hmem | hmem
        · exact hhd m hmem
        · exact ih (fun x hx => hin x (List.mem_cons_of_mem _ hx)) hr m hmem

/-- `split_nodes_link` only emits nodes with non-empty text. -/
theorem split_nodes_link_texts :
    ∀ {ns out : List TextNode}, (∀ n ∈ ns, n.text ≠ []) →
      split_nodes_link ns = .ok out → ∀ m ∈ out, m.text ≠ [] := by
  intro ns
  induction ns with
  | nil =>
    intro out _ h m hm
    cases h
    exact absurd hm (List.not_mem_nil m)
  | cons n rest ih =>
    intro out hin h m hm
    rw [split_nodes_link] at h
    cases hh :
        (if n.text_type ≠ TEXT_TYPE_TEXT then (.ok [n] : Except PyErr (List TextNode))
         else split_nodes_link_loop (n.text.length + 1) n.text) with
    | error e => rw [hh] at h; simp [Except.bind] at h
    | ok hd =>
      rw [hh] at h
      simp only [Except.bind] at h
      cases hr : split_nodes_link rest with
      | error e => rw [hr] at h; cases h
      | ok tl =>
        rw [hr] at h
        simp [Except.map] at h
        subst h
        have hhd : ∀ x ∈ hd, x.text ≠ [] := by
          by_cases ht : n.text_type ≠ TEXT_TYPE_TEXT
          · rw [if_pos ht] at hh
            cases hh
            intro x hx
            rw [List.mem_singleton] at hx
            subst hx
            exact hin _ (List.mem_cons_self _ _)
          · rw [if_neg ht] at hh
            exact split_nodes_link_loop_texts hh
        rcases List.mem_append.mp hm with hmem | hmem
        · exact hhd m hmem
        · exact ih (fun x hx => hin x (List.mem_cons_of_mem _ hx)) hr m hmem

/-- C10: every constructed span has non-empty text — the constructor rejects
empty text with `ValueError`; every successful run of the inline pipeline
yields only spans with non-empty content; and an image with empty alt text,
such as `![](url)`, cannot be represented: parsing it fails in the `TextNode`
constructor. -/
theorem C10_no_empty_spans :
    (∀ (tt : String) (u : Option (List Char)),
      TextNode.mk? [] tt u = .error (.valueError "Text must be provided for TextNode")) ∧
    (∀ (t : List Char) (tt : String) (u : Option (List Char)) (n : TextNode),
      TextNode.mk? t tt u = .ok n → n.text ≠ []) ∧
    (∀ (t : List Char) (ns : List TextNode),
      text_line_to_text_nodes t = .ok ns → ∀ n ∈ ns, n.text ≠ []) ∧
    text_line_to_text_nodes "![](url)".toList =
      .error (.valueError "Text must be provided for TextNode") := by
  refine ⟨fun tt u => rfl, fun t tt u n h => ?_, fun t ns h => ?_, rfl⟩
  · have hh := TextNode.mk?_ok h
    rw [hh.1]
    exact hh.2
  · rw [text_line_to_text_nodes] at h
    cases hmk : TextNode.mk? t TEXT_TYPE_TEXT none with
    | error e => rw [hmk] at h; cases h
    | ok n0 =>
      rw [hmk] at h
      simp only [Except.bind] at h
      have h0 : ∀ x ∈ [n0], x.text ≠ [] := by
        intro x hx
        rw [List.mem_singleton] at hx
        subst hx
        have hn := TextNode.mk?_ok hmk
        rw [hn.1]
        exact hn.2
      cases h1 : split_nodes_image [n0] with
      | error e => rw [h1] at h; cases h
      | ok ns1 =>
        rw [h1] at h
        dsimp only at h
        have hs1 := split_nodes_image_texts h0 h1
        cases h2 : split_nodes_link ns1 with
        | error e => rw [h2] at h; cases h
        | ok ns2 =>
          rw [h2] at h
          dsimp only at h
          have hs2 := split_nodes_link_texts hs1 h2
          cases h3 : split_nodes_delimiter ns2 ['*', '*'] TEXT_TYPE_BOLD with
          | error e => rw [h3] at h; cases h
          | ok ns3 =>
            rw [h3] at h
            dsimp only at h
            have hs3 := split_nodes_delimiter_texts hs2 h3
            cases h4 : split_nodes_delimiter ns3 ['_'] TEXT_TYPE_ITALIC with
            | error e => rw [h4] at h; cases h
            | ok ns4 =>
              rw [h4] at h
              dsimp only at h
              have hs4 := split_nodes_delimiter_texts hs3 h4
              exact split_nodes_delimiter_texts hs4 h

/-- C10 witness: the span produced for a concrete successful parse has
non-empty text. -/
theorem C10_no_empty_spans_witness :
    (⟨"hi".toList, TEXT_TYPE_TEXT, none⟩ : TextNode).text ≠ [] :=
  C10_no_empty_spans.2.2.1 "hi".toList [⟨"hi".toList, TEXT_TYPE_TEXT, none⟩] (by rfl)
    ⟨"hi".toList, TEXT_TYPE_TEXT, none⟩ (by decide)

/-- `takeWhile (= '#')` on a block of `n` hashes followed by a space. -/
theorem takeWhile_hash_replicate (n : Nat) (rest : List Char) :
    List.takeWhile (· = '#') (List.replicate n '#' ++ ' ' :: rest) = List.replicate n '#' := by
  induction n with
  | zero => simp [List.takeWhile]
  | succ k ih => simp [List.replicate_succ, List.takeWhile, ih]

/-- Filtering away `#` from a run of hashes leaves nothing. -/
theorem filter_ne_hash_replicate (n : Nat) :
    (List.replicate n '#').filter (· ≠ '#') = [] := by
  induction n with
  | zero => rfl
  | succ k ih => simp [List.replicate_succ, ih]

/-- C2 (amended): a heading block of `n` leading `#` (1 ≤ n ≤ 6) and exactly
one following space classifies as Heading and gets the tag number
`block.count('#')`; since the converter removes *every* `#` of the text
(`text.replace("#", "")`) and then strips *all* leading whitespace, the claim's
description is accurate exactly when the heading text contains no further `#`
and does not itself start with whitespace — under those hypotheses the spans
are the inline parse of the untouched remainder and the tag number is `n`.
(Without them the inner `#` are deleted and counted into the tag, see
`C2_counterexample`.) -/
theorem C2_heading_conversion (n : Nat) (rest : List Char)
    (h1 : 1 ≤ n) (h6 : n ≤ 6) (hnh : '#' ∉ rest)
    (hsp : ∀ c, rest.head? = some c → isPySpace c = false) :
    get_markdown_block_type (List.replicate n '#' ++ ' ' :: rest) = BLOCK_TYPE_HEADING ∧
    markdown_heading_to_text_node (List.replicate n '#' ++ ' ' :: rest) =
      text_line_to_text_nodes rest ∧
    (List.replicate n '#' ++ ' ' :: rest).count '#' = n := by
  have htw := takeWhile_hash_replicate n rest
  have hdrop : (List.replicate n '#' ++ ' ' :: rest).drop n = ' ' :: rest := by
    have h := List.drop_left (List.replicate n '#') (' ' :: rest)
    rwa [List.length_replicate] at h
  have hhm : headingMatch (List.replicate n '#' ++ ' ' :: rest) = true := by
    simp only [headingMatch, htw, List.length_replicate, hdrop]
    simp [h1, h6, isPySpace]
  have hfil : (List.replicate n '#' ++ ' ' :: rest).filter (· ≠ '#') = ' ' :: rest := by
    have hfr : rest.filter (· ≠ '#') = rest := by
      rw [List.filter_eq_self]
      intro c hc
      simp only [ne_eq, decide_eq_true_eq]
      intro he
      exact hnh (he ▸ hc)
    simp [List.filter_append, filter_ne_hash_replicate, hfr]
    exact fun a ha he => hnh (he ▸ ha)
  have hls : pyLstrip (' ' :: rest) = rest := by
    cases rest with
    | nil => rfl
    | cons c t =>
      have hc := hsp c rfl
      simp [pyLstrip, List.dropWhile, hc]
      rfl
  refine ⟨?_, ?_, ?_⟩
  · simp [get_markdown_block_type, hhm]
  · rw [markdown_heading_to_text_node, if_pos hhm, hfil, hls]
  · have hz : (' ' :: rest).count '#' = 0 := by
      rw [List.count_eq_zero]
      intro hmem
      rcases List.mem_cons.mp hmem with he | hmem2
      · cases he
      · exact hnh hmem2
    simp [List.count_append, hz]

/-- C2 witness: the heading `# Hello` parses to the inline spans of `Hello`
with one `#` counted for the tag. -/
theorem C2_heading_conversion_witness :
    get_markdown_block_type (List.replicate 1 '#' ++ ' ' :: "Hello".toList) =
      BLOCK_TYPE_HEADING ∧
    markdown_heading_to_text_node (List.replicate 1 '#' ++ ' ' :: "Hello".toList) =
      text_line_to_text_nodes "Hello".toList ∧
    (List.replicate 1 '#' ++ ' ' :: "Hello".toList).count '#' = 1 :=
  C2_heading_conversion 1 "Hello".toList (by decide) (by decide) (by decide)
    (by intro c hc; cases hc; rfl)

/-- Away from a line start, the `^`-anchored `re.sub` scan copies
newline-free text verbatim. -/
theorem pySubGo_copy_no_newline (m : List Char → Option Nat) (r rest : List Char)
    (h : ∀ c ∈ r, c ≠ '\n') :
    pySubGo m 0 false (r ++ rest) = r ++ pySubGo m 0 false rest := by
  induction r with
  | nil => rfl
  | cons c t ih =>
    have hc : c ≠ '\n' := h c (List.mem_cons_self _ _)
    simp [pySubGo, hc, ih fun x hx => h x (List.mem_cons_of_mem _ hx)]

/-- The quote `re.sub` on a block whose every (newline-free) line is
`"> " + r` strips exactly the `> ` prefixes. -/
theorem pySub_quote_lines :
    ∀ rs : List (List Char), rs ≠ [] → (∀ r ∈ rs, ∀ c ∈ r, c ≠ '\n') →
      pySubGo quoteMatcher 0 true (joinLines (rs.map fun r => '>' :: ' ' :: r)) =
        joinLines rs := by
  intro rs
  induction rs with
  | nil => intro h _; exact absurd rfl h
  | cons r rs' ih =>
    intro _ hnl
    have hr : ∀ c ∈ r, c ≠ '\n' := hnl r (List.mem_cons_self _ _)
    cases rs' with
    | nil =>
      show pySubGo quoteMatcher 0 true ('>' :: ' ' :: r) = r
      have hcopy := pySubGo_copy_no_newline quoteMatcher r [] hr
      simp only [List.append_nil] at hcopy
      simp [pySubGo, quoteMatcher, isPySpace, hcopy]
    | cons r2 rs'' =>
      have htail := ih (by simp) fun x hx => hnl x (List.mem_cons_of_mem _ hx)
      set J := joinLines ((r2 :: rs'').map fun r => '>' :: ' ' :: r) with hJ
      have hjoin :
          joinLines (((r :: r2 :: rs'').map fun r => '>' :: ' ' :: r)) =
            '>' :: ' ' :: (r ++ '\n' :: J) := by
        simp [joinLines, hJ]
      have h1 : pySubGo quoteMatcher 0 true ('>' :: ' ' :: (r ++ '\n' :: J)) =
          pySubGo quoteMatcher 0 false (r ++ '\n' :: J) := by
        simp [pySubGo, quoteMatcher, isPySpace]
      have h2 := pySubGo_copy_no_newline quoteMatcher r ('\n' :: J) hr
      have h3 : pySubGo quoteMatcher 0 false ('\n' :: J) =
          '\n' :: pySubGo quoteMatcher 0 true J := by
        simp [pySubGo]
      rw [hjoin, h1, h2, h3, htail]
      simp [joinLines]

/-- C4 (amended): for a Quote block whose every line is `> ` followed by the
line's content, the converter strips exactly the `> ` prefixes, rejoins with
newlines, and runs the inline parser once over the joined text; the
"empty quote" failure is raised (as `NotImplementedError`, not `ValueError`)
exactly on the literal two-character block `"> "`.  (A bare `>` without
whitespace is not stripped, and a bare `>` before a newline is removed
*together with the newline*, merging lines — see `C4_counterexample`.) -/
theorem C4_quote_conversion :
    markdown_quote_to_text_node ['>', ' '] =
      .error (.notImplementedError "Empty quotes not supported") ∧
    (∀ rs : List (List Char), rs ≠ [] → (∀ r ∈ rs, ∀ c ∈ r, c ≠ '\n') →
      joinLines (rs.map fun r => '>' :: ' ' :: r) ≠ ['>', ' '] →
      markdown_quote_to_text_node (joinLines (rs.map fun r => '>' :: ' ' :: r)) =
        text_line_to_text_nodes (joinLines rs)) := by
  refine ⟨rfl, fun rs hne hnl hblk => ?_⟩
  rw [markdown_quote_to_text_node, if_neg hblk, pySubLineStart,
    pySub_quote_lines rs hne hnl]

/-- C4 witness: the two-line quote `> a\n> b` parses as the inline spans of
`a\nb`. -/
theorem C4_quote_conversion_witness :
    markdown_quote_to_text_node (joinLines ([[ 'a' ], [ 'b' ]].map fun r => '>' :: ' ' :: r)) =
      text_line_to_text_nodes (joinLines [[ 'a' ], [ 'b' ]]) :=
  C4_quote_conversion.2 [[ 'a' ], [ 'b' ]] (by decide) (by decide) (by decide)

/-- `str.split` never returns an empty list of pieces. -/
theorem splitOnChar_ne_nil (sep : Char) (l : List Char) : splitOnChar sep l ≠ [] := by
  cases l with
  | nil => simp [splitOnChar]
  | cons c t =>
    by_cases hc : c = sep
    · simp [splitOnChar, hc]
    · cases h : splitOnChar sep t <;> simp [splitOnChar, hc, h]

/-- The first piece of `str.split` starts with the first character when that
character is not the separator. -/
theorem splitOnChar_cons_of_ne (sep c : Char) (t : List Char) (h : ¬ c = sep) :
    ∃ h0 t0, splitOnChar sep (c :: t) = (c :: h0) :: t0 := by
  cases hs : splitOnChar sep t with
  | nil => exact absurd hs (splitOnChar_ne_nil sep t)
  | cons h0 t0 => exact ⟨h0, t0, by simp [splitOnChar, h, hs]⟩

/-- The Boolean sequencing check of the ordered-list branch says exactly that
the `i`-th line's numeric prefix is `i + 1`. -/
theorem ordSeqOk_iff (lines : List (List Char)) :
    ordSeqOk lines = true ↔
      ∀ i (h : i < lines.length), intPrefixDot (lines.get ⟨i, h⟩) = i + 1 := by
  rw [ordSeqOk, List.all_eq_true]
  constructor
  · intro h i hi
    have hm : (i, lines[i]) ∈ lines.enum := by
      rw [List.mem_enum_iff_getElem?]
      exact List.getElem?_eq_getElem hi
    simpa using h _ hm
  · intro h p hp
    rw [List.mem_enum_iff_getElem?] at hp
    obtain ⟨hlt, he⟩ := List.getElem?_eq_some.mp hp
    simp only [decide_eq_true_eq]
    rw [← he]
    exact h p.1 hlt

/-- C6: for a block whose every line matches `^\d+\.\s`, the classifier
returns OrderedList exactly when the numeric prefixes are `1, 2, 3, …` in
order starting at 1, and Paragraph exactly otherwise; in particular
`1. a\n2. b\n3. c` classifies OrderedList and `1. a\n3. b` Paragraph. -/
theorem C6_ordered_list_classification :
    (∀ block : List Char,
      (∀ l ∈ splitOnChar '\n' block, ordLineMatch l = true) →
      ((get_markdown_block_type block = BLOCK_TYPE_ORD_LIST ↔
        ∀ i (h : i < (splitOnChar '\n' block).length),
          intPrefixDot ((splitOnChar '\n' block).get ⟨i, h⟩) = i + 1) ∧
       (get_markdown_block_type block = BLOCK_TYPE_PARAGRAPH ↔
        ¬ ∀ i (h : i < (splitOnChar '\n' block).length),
          intPrefixDot ((splitOnChar '\n' block).get ⟨i, h⟩) = i + 1))) ∧
    get_markdown_block_type "1. a\n2. b\n3. c".toList = BLOCK_TYPE_ORD_LIST ∧
    get_markdown_block_type "1. a\n3. b".toList = BLOCK_TYPE_PARAGRAPH := by
  refine ⟨?_, rfl, rfl⟩
  intro block H
  -- the block starts with a digit
  obtain ⟨d, t, hblock, hd⟩ :
      ∃ d t, block = d :: t ∧ d.isDigit = true := by
    cases hb : block with
    | nil =>
      have h0 := H [] (by simp [hb, splitOnChar])
      simp [ordLineMatch, List.takeWhile] at h0
    | cons c t =>
      by_cases hc : c = '\n'
      · subst hc
        have h0 := H [] (by simp [hb, splitOnChar])
        simp [ordLineMatch, List.takeWhile] at h0
      · obtain ⟨h0, t0, hs⟩ := splitOnChar_cons_of_ne '\n' c t hc
        have hline := H (c :: h0) (by rw [hb, hs]; exact List.mem_cons_self _ _)
        refine ⟨c, t, rfl, ?_⟩
        by_contra hcd
        have hcf : c.isDigit = false := by simpa using hcd
        have hta : List.takeWhile Char.isDigit (c :: h0) = [] := by
          simp [List.takeWhile, hcf]
        simp [ordLineMatch, hta] at hline
  subst hblock
  -- first line of the block
  obtain ⟨h0, t0, hs⟩ := splitOnChar_cons_of_ne '\n' d t
    (fun he => by rw [he] at hd; exact absurd hd (by decide))
  have hfirst : (d :: h0) ∈ splitOnChar '\n' (d :: t) := by
    rw [hs]
    exact List.mem_cons_self _ _
  -- the digit head kills every earlier classifier branch
  have hdh : ∀ x : Char, x.isDigit = false → ¬ d = x := by
    intro x hx he
    rw [he, hx] at hd
    cases hd
  have hheading : headingMatch (d :: t) = false := by
    have hta : List.takeWhile (· = '#') (d :: t) = [] := by
      simp [List.takeWhile, hdh '#' (by decide)]
    simp [headingMatch, hta]
  have hcode : ([backquote, backquote, backquote].isPrefixOf (d :: t)) = false := by
    have hne : (backquote == d) = false :=
      beq_eq_false_iff_ne.mpr fun he => hdh backquote (by decide) he.symm
    simp [List.isPrefixOf, hne]
  have hquote : ((splitOnChar '\n' (d :: t)).all quoteLineMatch) = false := by
    rw [Bool.eq_false_iff]
    intro hall
    have hthis := (List.all_eq_true.mp hall) _ hfirst
    have hq := hdh '>' (by decide)
    simp [quoteLineMatch, hq] at hthis
  have hunord : ((splitOnChar '\n' (d :: t)).all unordLineMatch) = false := by
    rw [Bool.eq_false_iff]
    intro hall
    have hthis := (List.all_eq_true.mp hall) _ hfirst
    cases h0 with
    | nil => simp [unordLineMatch] at hthis
    | cons c2 t2 =>
      simp [unordLineMatch] at hthis
      rcases hthis.1 with he | he
      · exact hdh '*' (by decide) he
      · exact hdh '-' (by decide) he
  have hord : ((splitOnChar '\n' (d :: t)).all ordLineMatch) = true :=
    List.all_eq_true.mpr fun l hl => H l hl
  rw [get_markdown_block_type, if_neg (by rw [hheading]; exact Bool.false_ne_true),
    if_neg (by rw [hcode]; simp), if_neg (by rw [hquote]; exact Bool.false_ne_true),
    if_neg (by rw [hunord]; exact Bool.false_ne_true), if_pos hord]
  by_cases hseq : ordSeqOk (splitOnChar '\n' (d :: t)) = true
  · rw [if_pos hseq]
    constructor
    · exact ⟨fun _ => (ordSeqOk_iff _).mp hseq, fun _ => rfl⟩
    · constructor
      · intro he
        exact absurd he (by decide)
      · intro hn
        exact absurd ((ordSeqOk_iff _).mp hseq) hn
  · rw [if_neg hseq]
    constructor
    · constructor
      · intro he
        exact absurd he (by decide)
      · intro hp
        exact absurd ((ordSeqOk_iff _).mpr hp) hseq
    · exact ⟨fun _ => fun hp => hseq ((ordSeqOk_iff _).mpr hp), fun _ => rfl⟩

/-- C6 witness: the general part applied to the concrete block
`1. a\n2. b\n3. c`. -/
theorem C6_ordered_list_classification_witness :
    get_markdown_block_type "1. a\n2. b\n3. c".toList = BLOCK_TYPE_ORD_LIST :=
  ((C6_ordered_list_classification.1 "1. a\n2. b\n3. c".toList (by decide)).1).mpr
    (by decide)

/-- Dropping as many elements as `takeWhile` keeps is `dropWhile`. -/
theorem drop_length_takeWhile (p : Char → Bool) (l : List Char) :
    l.drop (l.takeWhile p).length = l.dropWhile p := by
  induction l with
  | nil => rfl
  | cons c t ih =>
    by_cases h : p c = true
    · simp [List.takeWhile, List.dropWhile, h, ih]
    · have hf : p c = false := by simpa using h
      simp [List.takeWhile, List.dropWhile, hf]

/-- The title pattern matches exactly the lines `# ` followed by at least one
more character. -/
theorem titleLineSpec_iff (l : List Char) :
    TitleLineSpec l ↔ ∃ c rest, l = '#' :: ' ' :: c :: rest := by
  constructor
  · rintro ⟨k, r, rfl, hk, hr⟩
    cases k with
    | zero => omega
    | succ k' =>
      rw [List.replicate_succ]
      cases k' with
      | zero =>
        cases r with
        | nil => exact absurd rfl hr
        | cons c rest => exact ⟨c, rest, by simp⟩
      | succ k'' =>
        rw [List.replicate_succ]
        exact ⟨' ', List.replicate k'' ' ' ++ r, by simp⟩
  · rintro ⟨c, rest, rfl⟩
    exact ⟨1, c :: rest, by simp [List.replicate], by omega, by simp⟩

/-- The per-line matcher agrees with the spec-side pattern and captured
group. -/
theorem line_title_match_spec (l : List Char) :
    (line_title_match l = none ↔ ¬ TitleLineSpec l) ∧
    (∀ t, line_title_match l = some t ↔ TitleLineSpec l ∧ t = titleGroupSpec l) := by
  have key :
      (line_title_match l = none ∧ ¬ TitleLineSpec l) ∨
      (line_title_match l = some (titleGroupSpec l) ∧ TitleLineSpec l) := by
    cases l with
    | nil =>
      left
      refine ⟨rfl, ?_⟩
      rw [titleLineSpec_iff]
      rintro ⟨c, rest, h⟩
      cases h
    | cons c0 rest =>
      by_cases hc0 : c0 = '#'
      · subst hc0
        cases rest with
        | nil =>
          left
          refine ⟨rfl, ?_⟩
          rw [titleLineSpec_iff]
          rintro ⟨c, rest, h⟩
          cases h
        | cons c1 r1 =>
          by_cases hc1 : c1 = ' '
          · subst hc1
            cases r1 with
            | nil =>
              left
              refine ⟨rfl, ?_⟩
              rw [titleLineSpec_iff]
              rintro ⟨c, rest, h⟩
              cases h
            | cons c2 r2 =>
              right
              have hspec : TitleLineSpec ('#' :: ' ' :: c2 :: r2) :=
                (titleLineSpec_iff _).mpr ⟨c2, r2, rfl⟩
              refine ⟨?_, hspec⟩
              have hsp : (' ' :: c2 :: r2).takeWhile (· = ' ') =
                  ' ' :: ((c2 :: r2).takeWhile (· = ' ')) := by
                simp [List.takeWhile]
              have hdl := drop_length_takeWhile (· = ' ') (' ' :: c2 :: r2)
              rw [line_title_match]
              simp only [hdl]
              by_cases htl : (' ' :: c2 :: r2).dropWhile (· = ' ') = []
              · -- the whole rest is spaces, so at least two of them
                have hlen : ((' ' :: c2 :: r2).takeWhile (· = ' ')).length =
                    (' ' :: c2 :: r2).length := by
                  have happ := List.takeWhile_append_dropWhile
                    (p := fun c => decide (c = ' ')) (l := ' ' :: c2 :: r2)
                  rw [htl, List.append_nil] at happ
                  rw [happ]
                rw [if_neg ?_, if_neg (by simpa using htl), if_pos ?_]
                · simp [titleGroupSpec, htl]
                · rw [hlen]
                  simp
                · rw [hlen]
                  simp
              · rw [if_neg ?_, if_pos htl]
                · simp [titleGroupSpec, htl]
                  rw [if_neg]
                  rintro ⟨h1, h2⟩
                  apply htl
                  rw [List.dropWhile_eq_nil_iff]
                  intro x hx
                  rcases List.mem_cons.mp hx with rfl | hx2
                  · simp
                  · rcases List.mem_cons.mp hx2 with rfl | hx3
                    · simp [h1]
                    · simp [h2 x hx3]
                · rw [hsp]
                  simp
          · left
            have hsp : (c1 :: r1).takeWhile (· = ' ') = [] := by
              simp [List.takeWhile, hc1]
            refine ⟨?_, ?_⟩
            · rw [line_title_match]
              simp [hsp]
            · rw [titleLineSpec_iff]
              rintro ⟨c, rest, h⟩
              injection h with _ h
              injection h with h _
              exact hc1 h
      · left
        refine ⟨?_, ?_⟩
        · unfold line_title_match
          split
          · rename_i heq
            injection heq with h1 _
            exact absurd h1 hc0
          · rfl
        · rw [titleLineSpec_iff]
          rintro ⟨c, rest, h⟩
          injection h with h _
          exact hc0 h
  rcases key with ⟨hn, hs⟩ | ⟨hm, hs⟩
  · constructor
    · exact ⟨fun _ => hs, fun _ => hn⟩
    · intro t
      constructor
      · intro h
        rw [hn] at h
        cases h
      · rintro ⟨hspec, _⟩
        exact absurd hspec hs
  · constructor
    · constructor
      · intro h
        rw [hm] at h
        cases h
      · intro h
        exact absurd hs h
    · intro t
      constructor
      · intro h
        rw [hm] at h
        injection h with h
        exact ⟨hs, h.symm⟩
      · rintro ⟨_, rfl⟩
        exact hm

/-- `findSome?` returns exactly the value of the first element on which the
function fires. -/
theorem findSome?_first_iff {α β : Type} (f : α → Option β) :
    ∀ (l : List α) (b : β),
      l.findSome? f = some b ↔
        ∃ i a, l.get? i = some a ∧ f a = some b ∧
          ∀ j a', j < i → l.get? j = some a' → f a' = none := by
  intro l
  induction l with
  | nil =>
    intro b
    simp
  | cons a as ih =>
    intro b
    rw [List.findSome?_cons]
    cases hfa : f a with
    | some b' =>
      constructor
      · intro h
        injection h with h
        subst h
        exact ⟨0, a, rfl, hfa, fun j a' hj _ => absurd hj (Nat.not_lt_zero j)⟩
      · rintro ⟨i, a0, hget, hfa0, hearly⟩
        cases i with
        | zero =>
          injection hget with hget
          subst hget
          rw [hfa] at hfa0
          exact hfa0
        | succ j =>
          have h0 := hearly 0 a (Nat.succ_pos j) rfl
          rw [hfa] at h0
          cases h0
    | none =>
      rw [ih b]
      constructor
      · rintro ⟨i, a0, hget, hfa0, hearly⟩
        refine ⟨i + 1, a0, by simpa using hget, hfa0, ?_⟩
        intro j a' hj hg
        cases j with
        | zero =>
          injection hg with hg
          subst hg
          exact hfa
        | succ j' =>
          exact hearly j' a' (Nat.lt_of_succ_lt_succ hj) (by simpa using hg)
      · rintro ⟨i, a0, hget, hfa0, hearly⟩
        cases i with
        | zero =>
          injection hget with hget
          subst hget
          rw [hfa] at hfa0
          cases hfa0
        | succ i' =>
          refine ⟨i', a0, by simpa using hget, hfa0, ?_⟩
          intro j a' hj hg
          exact hearly (j + 1) a' (Nat.succ_lt_succ hj) (by simpa using hg)

/-- C7 (amended): `extract_title` returns the captured group of the first
line matching `^# +(.+)$` — plain spaces after the `#`, not arbitrary `\s`
whitespace (see `C7_counterexample`) — and fails with the
`MissingTitle` `ValueError` exactly when no line of the source matches. -/
theorem C7_title_extraction (text : List Char) :
    (extract_title text =
      .error (.valueError "Invalid markdown without any h1 header") ↔
      ∀ l ∈ splitOnChar '\n' text, ¬ TitleLineSpec l) ∧
    (∀ t, extract_title text = .ok t ↔
      ∃ i l, (splitOnChar '\n' text).get? i = some l ∧ TitleLineSpec l ∧
        t = titleGroupSpec l ∧
        ∀ j l', j < i → (splitOnChar '\n' text).get? j = some l' →
          ¬ TitleLineSpec l') := by
  cases hfs : (splitOnChar '\n' text).findSome? line_title_match with
  | none =>
    have hET : extract_title text =
        .error (.valueError "Invalid markdown without any h1 header") := by
      rw [extract_title, hfs]
    have hnone := List.findSome?_eq_none_iff.mp hfs
    constructor
    · exact ⟨fun _ l hl => (line_title_match_spec l).1.mp (hnone l hl), fun _ => hET⟩
    · intro t
      constructor
      · intro h
        rw [hET] at h
        cases h
      · rintro ⟨i, l, hget, hspec, _, _⟩
        exact absurd hspec
          ((line_title_match_spec l).1.mp (hnone l (List.get?_mem hget)))
  | some t0 =>
    have hET : extract_title text = .ok t0 := by
      rw [extract_title, hfs]
    obtain ⟨i0, a0, hget0, hfa0, hearly0⟩ := (findSome?_first_iff _ _ _).mp hfs
    have hspec0 := ((line_title_match_spec a0).2 t0).mp hfa0
    constructor
    · constructor
      · intro h
        rw [hET] at h
        cases h
      · intro hall
        exact absurd hspec0.1 (hall a0 (List.get?_mem hget0))
    · intro t
      constructor
      · intro h
        rw [hET] at h
        injection h with h
        subst h
        exact ⟨i0, a0, hget0, hspec0.1, hspec0.2, fun j l' hj hg =>
          (line_title_match_spec l').1.mp (hearly0 j l' hj hg)⟩
      · rintro ⟨i, l, hget, hspec, ht, hearly⟩
        rw [hET]
        rcases Nat.lt_trichotomy i0 i with hlt | heq | hgt
        · exact absurd hspec0.1 (hearly i0 a0 hlt hget0)
        · subst heq
          rw [hget0] at hget
          injection hget with hget
          subst hget
          rw [hspec0.2, ← ht]
        · have hn := (line_title_match_spec l).1.mp (hearly0 i l hgt hget)
          exact absurd hspec hn

/-- C7 witness: the amended characterization applied to the source `# Hi`. -/
theorem C7_title_extraction_witness :
    ∃ i l, (splitOnChar '\n' "# Hi".toList).get? i = some l ∧ TitleLineSpec l ∧
      "Hi".toList = titleGroupSpec l ∧
      ∀ j l', j < i → (splitOnChar '\n' "# Hi".toList).get? j = some l' →
        ¬ TitleLineSpec l' :=
  ((C7_title_extraction "# Hi".toList).2 "Hi".toList).mp rfl

end Pyssg
